import Mathlib

/-!
Verification development for the Hikari-OCR browser UI
(`src/app/ui/scripts/main.js`).

Filenames and other JavaScript strings are modelled as `List Char`
(sequences of Unicode code points).  The two regular expressions used by
`detectMonthFromFilename` are embedded as explicit leftmost-match scanners
with the greediness of the JavaScript engine, and the month-name table is
embedded as an association list in the source's insertion order (the order
`Object.entries` iterates string keys).
-/

namespace Hikari

/-- Half-width decimal digit `[0-9]`. -/
def isHalfDigit (c : Char) : Bool :=
  48 ≤ c.toNat && c.toNat ≤ 57

/-- Full-width decimal digit `[０-９]` (U+FF10 – U+FF19). -/
def isFullDigit (c : Char) : Bool :=
  0xFF10 ≤ c.toNat && c.toNat ≤ 0xFF19

/-- The character class `[0-9０-９]` of pattern 1. -/
def isP1Digit (c : Char) : Bool :=
  isHalfDigit c || isFullDigit c

/-- The JavaScript regex class `\s`: WhiteSpace and LineTerminator code
points per ECMA-262. -/
def isJsSpace (c : Char) : Bool :=
  c.toNat = 0x09 || c.toNat = 0x0A || c.toNat = 0x0B || c.toNat = 0x0C ||
  c.toNat = 0x0D || c.toNat = 0x20 || c.toNat = 0xA0 || c.toNat = 0x1680 ||
  (0x2000 ≤ c.toNat && c.toNat ≤ 0x200A) ||
  c.toNat = 0x2028 || c.toNat = 0x2029 || c.toNat = 0x202F ||
  c.toNat = 0x205F || c.toNat = 0x3000 || c.toNat = 0xFEFF

/-- `monthStr.replace(/[０-９]/g, s => String.fromCharCode(s.charCodeAt(0) - 0xFEE0))`
applied characterwise: normalise a full-width digit to half-width. -/
def toHalf (c : Char) : Char :=
  if isFullDigit c then Char.ofNat (c.toNat - 0xFEE0) else c

/-- `parseInt` specialised to a string of half-width decimal digits
(the only shape the captured groups can have after normalisation). -/
def digitsToNat (l : List Char) : Nat :=
  l.foldl (fun a c => 10 * a + (c.toNat - 48)) 0

/-- Matching `\s*月` at the head of the input: skip JS whitespace, then
require the literal `月`.  (Backtracking inside `\s*` cannot help, because
`月` is not itself in `\s`.) -/
def wsThenMonth : List Char → Bool
  | [] => false
  | c :: rest => if c = '月' then true else if isJsSpace c then wsThenMonth rest else false

/-- Attempt of pattern 1, `([0-9０-９]{1,2})\s*月`, anchored at the head of
the input; returns the captured digit string.  The quantifier `{1,2}` is
greedy, so two digits are preferred over one. -/
def p1At : List Char → Option (List Char)
  | [] => none
  | c1 :: rest1 =>
    if isP1Digit c1 then
      match rest1 with
      | [] => none
      | c2 :: rest2 =>
        if isP1Digit c2 && wsThenMonth rest2 then some [c1, c2]
        else if wsThenMonth rest1 then some [c1]
        else none
    else none

/-- Leftmost match of pattern 1 over the whole string, as
`filename.match(/([0-9０-９]{1,2})\s*月/)`: the earliest start position
wins. -/
def p1Find : List Char → Option (List Char)
  | [] => none
  | c :: rest =>
    match p1At (c :: rest) with
    | some cap => some cap
    | none => p1Find rest

/-- The leading delimiter class `[_\-]` of pattern 2: `_` is U+005F (95)
and `-` is U+002D (45). -/
def isDelimL (c : Char) : Bool :=
  c.toNat = 95 || c.toNat = 45

/-- The trailing delimiter class `[_\-\.]` of pattern 2: `_`, `-`, and
`.` (U+002E, 46). -/
def isDelimR (c : Char) : Bool :=
  c.toNat = 95 || c.toNat = 45 || c.toNat = 46

/-- Attempt of pattern 2, `[_\-]([0-9]{2})[_\-\.]`, anchored at the head of
the input; returns the captured two digits. -/
def p2At : List Char → Option (List Char)
  | c1 :: c2 :: c3 :: c4 :: _ =>
    if isDelimL c1 && isHalfDigit c2 && isHalfDigit c3 && isDelimR c4 then
      some [c2, c3]
    else none
  | _ => none

/-- Leftmost match of pattern 2 over the whole string, as
`filename.match(/[_\-]([0-9]{2})[_\-\.]/)`. -/
def p2Find : List Char → Option (List Char)
  | [] => none
  | c :: rest =>
    match p2At (c :: rest) with
    | some cap => some cap
    | none => p2Find rest

/-- The offset correction and range check shared verbatim by patterns 1
and 2 of the source:
`month = month - 1; if (month === 0) month = 12; if (month >= 1 && month <= 12) return month;`.
Returns `none` when the corrected value fails the range check, in which
case the source falls through to the next pattern. -/
def offsetWrap (n : Nat) : Int :=
  if (n : Int) - 1 = 0 then 12 else (n : Int) - 1

def offsetCorrect (n : Nat) : Option Nat :=
  if 1 ≤ offsetWrap n ∧ offsetWrap n ≤ 12 then some (offsetWrap n).toNat else none

/-- `String.prototype.toLowerCase` restricted to the simple case mapping
on Basic Latin: `A`–`Z` map to `a`–`z`, every other code point relevant to
the month-name table (digits, punctuation, CJK, full-width forms) is
unchanged. -/
def jsToLower (c : Char) : Char :=
  if 65 ≤ c.toNat && c.toNat ≤ 90 then Char.ofNat (c.toNat + 32) else c

/-- `pat` is a prefix of the second argument. -/
def startsWithL : List Char → List Char → Bool
  | [], _ => true
  | _ :: _, [] => false
  | p :: ps, c :: cs => if p = c then startsWithL ps cs else false

/-- `s.includes(pat)`: `pat` occurs as a contiguous substring of `s`. -/
def containsSubstr : List Char → List Char → Bool
  | [], pat => startsWithL pat []
  | c :: t, pat => startsWithL pat (c :: t) || containsSubstr t pat

/-- The `monthNames` table of pattern 3, in the source's insertion order
(the iteration order of `Object.entries` for these keys). -/
def monthNames : List (List Char × Nat) :=
  [("jan".toList, 1), ("january".toList, 1),
   ("feb".toList, 2), ("february".toList, 2),
   ("mar".toList, 3), ("march".toList, 3),
   ("apr".toList, 4), ("april".toList, 4),
   ("may".toList, 5),
   ("jun".toList, 6), ("june".toList, 6),
   ("jul".toList, 7), ("july".toList, 7),
   ("aug".toList, 8), ("august".toList, 8),
   ("sep".toList, 9), ("september".toList, 9),
   ("oct".toList, 10), ("october".toList, 10),
   ("nov".toList, 11), ("november".toList, 11),
   ("dec".toList, 12), ("december".toList, 12)]

/-- The `for (const [name, month] of Object.entries(monthNames))` loop:
return the month of the first table entry whose name is contained in the
(lowercased) filename. -/
def monthLookup : List (List Char × Nat) → List Char → Option Nat
  | [], _ => none
  | (nm, m) :: rest, low =>
    if containsSubstr low nm then some m else monthLookup rest low

/-- Pattern 3 of `detectMonthFromFilename`: lowercase the filename and scan
the month-name table. -/
def pattern3 (s : List Char) : Option Nat :=
  monthLookup monthNames (s.map jsToLower)

/-- Patterns 2 then 3 of `detectMonthFromFilename` (the code reached when
pattern 1 does not return). -/
def detect2 (s : List Char) : Option Nat :=
  match p2Find s with
  | some cap =>
    match offsetCorrect (digitsToNat cap) with
    | some m => some m
    | none => pattern3 s
  | none => pattern3 s

/-- `detectMonthFromFilename` of `src/app/ui/scripts/main.js`: pattern 1
(digits before `月`, full-width normalised, offset-corrected), falling
through to pattern 2 (delimited two-digit number, offset-corrected), then
pattern 3 (English month names), else `null` (`none`). -/
def detectMonthFromFilename (s : List Char) : Option Nat :=
  match p1Find s with
  | some cap =>
    match offsetCorrect (digitsToNat (cap.map toHalf)) with
    | some m => some m
    | none => detect2 s
  | none => detect2 s

/-- ECMAScript `parseInt(string)` with no radix argument: strip leading
whitespace, read an optional sign, auto-detect a `0x`/`0X` hex prefix,
then take the longest prefix of digits of the radix.  `none` models the
`NaN` result when no digit is present. -/
def digitValue (c : Char) : Option Nat :=
  if 48 ≤ c.toNat && c.toNat ≤ 57 then some (c.toNat - 48)
  else if 97 ≤ c.toNat && c.toNat ≤ 102 then some (c.toNat - 87)
  else if 65 ≤ c.toNat && c.toNat ≤ 70 then some (c.toNat - 55)
  else none

/-- Accumulate the longest digit prefix; `acc = none` until the first
digit is seen. -/
def parseDigits (radix : Nat) : Option Nat → List Char → Option Nat
  | acc, [] => acc
  | acc, c :: t =>
    match digitValue c with
    | some v => if v < radix then parseDigits radix (some ((acc.getD 0) * radix + v)) t else acc
    | none => acc

def jsParseInt (s : List Char) : Option Int :=
  let t := List.dropWhile isJsSpace s
  match t with
  | '-' :: r => (parseRest r).map (fun v => -(v : Int))
  | '+' :: r => (parseRest r).map (fun v => (v : Int))
  | _ => (parseRest t).map (fun v => (v : Int))
where
  parseRest (r : List Char) : Option Nat :=
    match r with
    | '0' :: 'x' :: r2 => parseDigits 16 none r2
    | '0' :: 'X' :: r2 => parseDigits 16 none r2
    | _ => parseDigits 10 none r

/-- `s.replace(pat, rep)` for a string pattern: replace the first
occurrence of `pat`, or return `s` unchanged when `pat` does not occur. -/
def replaceFirstSub (pat rep : List Char) : List Char → List Char
  | [] => if pat = [] then rep else []
  | c :: t =>
    if startsWithL pat (c :: t) then rep ++ List.drop pat.length (c :: t)
    else c :: replaceFirstSub pat rep t

/-- `x.replace(/c/g, rep)` for a single-character pattern `c`. -/
def replaceAllChar (c : Char) (rep : List Char) (s : List Char) : List Char :=
  s.flatMap (fun x => if x = c then rep else [x])

/-- The escaping in `addResultRow`:
`.replace(/&/g, '&amp;').replace(/</g, '&lt;').replace(/>/g, '&gt;')`. -/
def escapeHtml (s : List Char) : List Char :=
  replaceAllChar '>' "&gt;".toList
    (replaceAllChar '<' "&lt;".toList
      (replaceAllChar '&' "&amp;".toList s))

/-- A JavaScript number rendered into a template string; integral values
print in decimal with a leading `-` when negative. -/
def intToChars (n : Int) : List Char :=
  (toString n).toList

/-!
## Uploaded-file list state

An `UploadedEntry` models one element of the global `uploadedFiles`
array.  `selectedMonth` holds a JavaScript number: `some m` is the number
`m`, `none` models `NaN` (the result `parseInt` can produce); the
`detectedMonth` field is `null` (`none`) or a month.
-/

structure UploadedEntry where
  name : List Char
  detectedMonth : Option Nat
  selectedMonth : Option Int
deriving DecidableEq, Repr

/-- `selectedMonth: detectedMonth || 1` of `addFiles`: JavaScript `||`
takes the right operand when the left is falsy (`null` or `0`). -/
def initMonth (dm : Option Nat) : Option Int :=
  match dm with
  | some m => if m = 0 then some 1 else some (m : Int)
  | none => some 1

/-- `addFiles(files)`: push one entry per file, detecting its month from
the filename. -/
def addFiles (names : List (List Char)) (st : List UploadedEntry) : List UploadedEntry :=
  st ++ names.map (fun nm =>
    { name := nm
      detectedMonth := detectMonthFromFilename nm
      selectedMonth := initMonth (detectMonthFromFilename nm) })

/-- Write `v` into the `selectedMonth` of the entry at `index`
(`uploadedFiles[index].selectedMonth = v`); out-of-range indices leave the
list unchanged. -/
def setMonthAt : List UploadedEntry → Nat → Option Int → List UploadedEntry
  | [], _, _ => []
  | e :: rest, 0, v => { e with selectedMonth := v } :: rest
  | e :: rest, i + 1, v => e :: setMonthAt rest i v

/-- `updateFileMonth(index, month)`:
`uploadedFiles[index].selectedMonth = parseInt(month)`. -/
def updateFileMonth (st : List UploadedEntry) (index : Nat) (month : List Char) : List UploadedEntry :=
  setMonthAt st index (jsParseInt month)

/-!
## Result-table rendering

`ResultItem` models one element of `result.results` in the `/api/process`
response.  A missing `fields` object and an empty one take the same
branches in the source (both are falsy for `Object.keys(..).length > 0`),
so `fields` is a plain association list in object-key order; likewise a
missing `ocr_text` and the empty string behave identically, so `ocr_text`
is a plain list.  `ocr_confidence` is a JavaScript number, modelled in
`ℚ`; the comparisons the source performs on it (`>= 0.8`, ratio `>= 0.2`)
are mirrored exactly on rationals.
-/

structure ResultItem where
  filename : List Char
  status : List Char
  fields : List (List Char × Int)
  ocr_text : List Char
  ocr_confidence : Option ℚ
deriving DecidableEq, Repr

/-- A row appended to `resultTableBody`, keyed by its semantic content:
`month` is a data row (month cell, kWh cell, success/failure badge),
`ocrDetails`/`ocrUnavailable` are the collapsible OCR rows, and
`errorRow` is the row `addErrorRow` builds (`-` / `エラー` / `失敗` with
the filename in the badge title). -/
inductive TableRow where
  | month (monthLabel kwh : List Char) (ok : Bool)
  | ocrDetails (confidence : ℚ) (text : List Char)
  | ocrUnavailable
  | errorRow (filename : List Char)
deriving DecidableEq, Repr

/-- Japanese character class of the OCR quality check:
`[぀-ゟ゠-ヿ一-鿿]`. -/
def isJapaneseChar (c : Char) : Bool :=
  (0x3040 ≤ c.toNat && c.toNat ≤ 0x309F) ||
  (0x30A0 ≤ c.toNat && c.toNat ≤ 0x30FF) ||
  (0x4E00 ≤ c.toNat && c.toNat ≤ 0x9FFF)

/-- Sort key of `monthKeys`: `parseInt(key.replace('月値', ''))`; `none`
models `NaN`. -/
def keyNum (k : List Char) : Option Int :=
  jsParseInt (replaceFirstSub "月値".toList [] k)

/-- The comparator `(a, b) => monthA - monthB` as a strict order: a
negative comparator value means `a` sorts before `b`; a `NaN` comparator
value is treated as `0` by `Array.prototype.sort`, i.e. as a tie. -/
def keyLt (a b : List Char) : Bool :=
  match keyNum a, keyNum b with
  | some x, some y => decide (x < y)
  | _, _ => false

/-- Stable insertion step for `keyLt`. -/
def insertSorted (x : List Char) : List (List Char) → List (List Char)
  | [] => [x]
  | y :: ys => if keyLt x y then x :: y :: ys else y :: insertSorted x ys

/-- `Array.prototype.sort` with the month comparator (stable, as required
since ES2019). -/
def sortMonthKeys (l : List (List Char)) : List (List Char) :=
  l.foldl (fun acc x => insertSorted x acc) []

/-- `result.fields[key]` (keys come from the same object, so the lookup
always succeeds; `0` is an unreachable default). -/
def fieldValue (fields : List (List Char × Int)) (k : List Char) : Int :=
  match fields.find? (fun p => p.1 = k) with
  | some p => p.2
  | none => 0

/-- Truthiness of the `selectedMonth` variable of the rendering loop:
`null` (not found), `NaN` and `0` are falsy. -/
def jsTruthyInt : Option Int → Bool
  | some m => decide (m ≠ 0)
  | none => false

/-- `addResultRow(tbody, result, selectedMonth)`: the list of rows the
call appends. -/
def addResultRow (item : ResultItem) (selectedMonth : Option Int) : List TableRow :=
  let confidence : ℚ := (item.ocr_confidence).getD 0
  let totalChars : Nat := (item.ocr_text.filter (fun c => !isJsSpace c)).length
  let jpChars : Nat := (item.ocr_text.filter isJapaneseChar).length
  let jpRatioQ : ℚ := if 0 < totalChars then (jpChars : ℚ) / (totalChars : ℚ) else 0
  let shouldShowOcr : Bool :=
    decide ((4 : ℚ) / 5 ≤ confidence) && decide (0 < item.ocr_text.length) &&
      decide ((1 : ℚ) / 5 ≤ jpRatioQ)
  let ocrRows : List TableRow :=
    if shouldShowOcr then [TableRow.ocrDetails confidence (escapeHtml item.ocr_text)]
    else if 0 < item.ocr_text.length then [TableRow.ocrUnavailable]
    else []
  if 0 < item.fields.length then
    let monthKeys := sortMonthKeys ((item.fields.map Prod.fst).filter (fun k => ¬ k = "ocr_confidence".toList))
    if 0 < monthKeys.length then
      (monthKeys.map (fun k =>
        TableRow.month (replaceFirstSub "値".toList [] k)
          (intToChars (fieldValue item.fields k) ++ " kWh".toList) true)) ++ ocrRows
    else if jsTruthyInt selectedMonth then
      TableRow.month (intToChars (selectedMonth.getD 0) ++ "月".toList) "未検出".toList true :: ocrRows
    else []
  else if jsTruthyInt selectedMonth then
    [TableRow.month (intToChars (selectedMonth.getD 0) ++ "月".toList) "エラー".toList false]
  else []

/-- `const uploadedFile = uploadedFiles.find(f => f.file.name === item.filename); const selectedMonth = uploadedFile ? uploadedFile.selectedMonth : null;`
of the rendering loop. -/
def selMonthOf (files : List UploadedEntry) (item : ResultItem) : Option Int :=
  match files.find? (fun f => f.name = item.filename) with
  | some f => f.selectedMonth
  | none => none

/-- One iteration of the `result.results.forEach` loop of
`handleExecute`: find the uploaded file by name, then either render the
item (`完了` / `kWh未検出`) or append the error row. -/
def renderItem (files : List UploadedEntry) (item : ResultItem) : List TableRow :=
  if item.status = "完了".toList ∨ item.status = "kWh未検出".toList then
    addResultRow item (selMonthOf files item)
  else
    [TableRow.errorRow item.filename]

/-- The whole `result.results.forEach` loop: rows appended to the table
body, in order. -/
def renderResults (files : List UploadedEntry) : List ResultItem → List TableRow
  | [] => []
  | item :: rest => renderItem files item ++ renderResults files rest

/-!
## Views of the detector used by the claims

`p1Accept`/`p2Accept` are the value a numeric pattern contributes when its
regex matches and the corrected value passes the range check; they are the
claims' notion of a pattern "succeeding".
-/

/-- The value pattern 1 accepts (regex match and range check both pass). -/
def p1Accept (s : List Char) : Option Nat :=
  match p1Find s with
  | some cap => offsetCorrect (digitsToNat (cap.map toHalf))
  | none => none

/-- The value pattern 2 accepts (regex match and range check both pass). -/
def p2Accept (s : List Char) : Option Nat :=
  match p2Find s with
  | some cap => offsetCorrect (digitsToNat cap)
  | none => none

/-!
## Helper lemmas
-/

theorem offsetCorrect_range {n m : Nat} (h : offsetCorrect n = some m) :
    1 ≤ m ∧ m ≤ 12 := by
  unfold offsetCorrect at h
  split at h
  · rename_i hr
    cases h
    omega
  · exact absurd h (by simp)

theorem offsetCorrect_of_mem {n : Nat} (h1 : 1 ≤ n) (h2 : n ≤ 12) :
    offsetCorrect n = some (if n = 1 then 12 else n - 1) := by
  interval_cases n <;> decide

/-- The range check is applied to the corrected value, so every parsed
numeral in [1,13] is accepted: 1 wraps to 12, and the others map to
n−1 (13 included, yielding 12). -/
theorem offsetCorrect_accept {n : Nat} (h1 : 1 ≤ n) (h2 : n ≤ 13) :
    offsetCorrect n = some (if n = 1 then 12 else n - 1) := by
  interval_cases n <;> decide

theorem offsetCorrect_eq_none {n : Nat} (h : n = 0 ∨ 14 ≤ n) :
    offsetCorrect n = none := by
  unfold offsetCorrect offsetWrap
  split_ifs <;> first | rfl | (exfalso ; omega)

theorem monthLookup_range {tbl : List (List Char × Nat)} {low : List Char} {m : Nat}
    (htbl : ∀ p ∈ tbl, 1 ≤ p.2 ∧ p.2 ≤ 12) (h : monthLookup tbl low = some m) :
    1 ≤ m ∧ m ≤ 12 := by
  induction tbl with
  | nil => exact absurd h (by simp [monthLookup])
  | cons p rest ih =>
    obtain ⟨nm, v⟩ := p
    unfold monthLookup at h
    split at h
    · cases h
      exact htbl (nm, m) (List.mem_cons_self _ _)
    · exact ih (fun q hq => htbl q (List.mem_cons_of_mem _ hq)) h

theorem pattern3_range {s : List Char} {m : Nat} (h : pattern3 s = some m) :
    1 ≤ m ∧ m ≤ 12 :=
  monthLookup_range (by decide) h

theorem detect2_range {s : List Char} {m : Nat} (h : detect2 s = some m) :
    1 ≤ m ∧ m ≤ 12 := by
  unfold detect2 at h
  split at h
  · split at h
    · rename_i hoc
      cases h
      exact offsetCorrect_range hoc
    · exact pattern3_range h
  · exact pattern3_range h

theorem detect_range {s : List Char} {m : Nat}
    (h : detectMonthFromFilename s = some m) : 1 ≤ m ∧ m ≤ 12 := by
  unfold detectMonthFromFilename at h
  split at h
  · split at h
    · rename_i hoc
      cases h
      exact offsetCorrect_range hoc
    · exact detect2_range h
  · exact detect2_range h

theorem monthLookup_not_found {tbl : List (List Char × Nat)} {low : List Char}
    (h : ∀ p ∈ tbl, containsSubstr low p.1 = false) :
    monthLookup tbl low = none := by
  induction tbl with
  | nil => rfl
  | cons p rest ih =>
    obtain ⟨nm, v⟩ := p
    have h1 : containsSubstr low nm = false := h (nm, v) (List.mem_cons_self _ _)
    simp only [monthLookup, h1, Bool.false_eq_true, if_false]
    exact ih (fun q hq => h q (List.mem_cons_of_mem _ hq))

theorem monthLookup_first {pre post : List (List Char × Nat)} {nm low : List Char} {m : Nat}
    (hmem : containsSubstr low nm = true)
    (hpre : ∀ p ∈ pre, containsSubstr low p.1 = false) :
    monthLookup (pre ++ (nm, m) :: post) low = some m := by
  induction pre with
  | nil => simp [monthLookup, hmem]
  | cons p rest ih =>
    obtain ⟨q, v⟩ := p
    have h1 : containsSubstr low q = false := hpre (q, v) (List.mem_cons_self _ _)
    simp only [List.cons_append, monthLookup, h1, Bool.false_eq_true, if_false]
    exact ih (fun r hr => hpre r (List.mem_cons_of_mem _ hr))

theorem detect_match1 {s cap : List Char} (h : p1Find s = some cap) :
    detectMonthFromFilename s =
      match offsetCorrect (digitsToNat (cap.map toHalf)) with
      | some m => some m
      | none => detect2 s := by
  unfold detectMonthFromFilename
  rw [h]

theorem detect_nomatch1 {s : List Char} (h : p1Find s = none) :
    detectMonthFromFilename s = detect2 s := by
  unfold detectMonthFromFilename
  rw [h]

theorem detect2_match2 {s cap : List Char} (h : p2Find s = some cap) :
    detect2 s =
      match offsetCorrect (digitsToNat cap) with
      | some m => some m
      | none => pattern3 s := by
  unfold detect2
  rw [h]

theorem detect2_nomatch2 {s : List Char} (h : p2Find s = none) :
    detect2 s = pattern3 s := by
  unfold detect2
  rw [h]

theorem p2Accept_detect2 {s : List Char} {m : Nat} (h : p2Accept s = some m) :
    detect2 s = some m := by
  unfold p2Accept at h
  split at h
  · rename_i cap hp2
    rw [detect2_match2 hp2, h]
  · exact absurd h (by simp)

theorem p2Accept_none_detect2 {s : List Char} (h : p2Accept s = none) :
    detect2 s = pattern3 s := by
  unfold p2Accept at h
  split at h
  · rename_i cap hp2
    rw [detect2_match2 hp2, h]
  · rename_i hp2
    exact detect2_nomatch2 hp2

theorem p1Accept_detect {s : List Char} {m : Nat} (h : p1Accept s = some m) :
    detectMonthFromFilename s = some m := by
  unfold p1Accept at h
  split at h
  · rename_i cap hp1
    rw [detect_match1 hp1, h]
  · exact absurd h (by simp)

theorem p1Accept_none_detect {s : List Char} (h : p1Accept s = none) :
    detectMonthFromFilename s = detect2 s := by
  unfold p1Accept at h
  split at h
  · rename_i cap hp1
    rw [detect_match1 hp1, h]
  · rename_i hp1
    exact detect_nomatch1 hp1

/-!
## Claims
-/

/-- C1, counterexample: the filename `23月.pdf` contains the substring
`3月` (one digit immediately followed by `月`, parsing to 3 ∈ [1,12]), so
the claim demands detected month 2; but the regex match is the leftmost,
greedy one (`23`), whose corrected value 22 fails the range check, and no
other pattern applies, so the code returns `null`. -/
theorem claim_C1_counterexample :
    containsSubstr ("23月.pdf".toList) ("3月".toList) = true ∧
      isP1Digit '3' = true ∧
      detectMonthFromFilename ("23月.pdf".toList) = none := by
  decide

/-- C1, amended: for every filename whose leftmost (greedy) match of
pattern 1 captures digits parsing to NN ∈ [1,12] after full-width
normalisation, the detected month is NN−1, wrapping NN=1 to 12. -/
theorem claim_C1_theorem (s cap : List Char) (nn : Nat)
    (hfind : p1Find s = some cap)
    (hval : digitsToNat (cap.map toHalf) = nn)
    (h1 : 1 ≤ nn) (h2 : nn ≤ 12) :
    detectMonthFromFilename s = some (if nn = 1 then 12 else nn - 1) := by
  rw [detect_match1 hfind, hval, offsetCorrect_of_mem h1 h2]

/-- C1, witness: `12月分_report.pdf` yields detected month 11. -/
theorem claim_C1_witness :
    detectMonthFromFilename ("12月分_report.pdf".toList) = some 11 := by
  exact claim_C1_theorem ("12月分_report.pdf".toList) ("12".toList) 12
    (by decide) (by decide) (by decide) (by decide)

/-- C2, counterexample: on `13月.pdf` pattern 1 parses the numeral 13,
which is outside [1,12]; the claim says the heuristic is then rejected and
the next pattern tried (which here would give `null`), but the code
accepts it — the offset is applied before the range check — and returns
12 from pattern 1. -/
theorem claim_C2_counterexample :
    p1Find ("13月.pdf".toList) = some ("13".toList) ∧
      digitsToNat (("13".toList).map toHalf) = 13 ∧
      detectMonthFromFilename ("13月.pdf".toList) = some 12 ∧
      detect2 ("13月.pdf".toList) = none := by
  decide

/-- C2, amended: a numeric heuristic is rejected — and the next pattern
in order is tried instead — exactly when its offset-corrected value falls
outside [1,12], i.e. when the parsed numeral is 0 or at least 14.  Both
directions, for both patterns: a parsed numeral of 0 or ≥ 14 falls
through to the next pattern, and every parsed numeral in [1,13] is
accepted, the pattern itself returning the corrected value (1 wraps to
12; 2–13 map to the numeral minus one). -/
theorem claim_C2_theorem :
    (∀ (s cap : List Char) (nn : Nat), p1Find s = some cap →
      digitsToNat (cap.map toHalf) = nn → nn = 0 ∨ 14 ≤ nn →
      detectMonthFromFilename s = detect2 s) ∧
    (∀ (s cap : List Char) (nn : Nat), p1Find s = some cap →
      digitsToNat (cap.map toHalf) = nn → 1 ≤ nn → nn ≤ 13 →
      detectMonthFromFilename s = some (if nn = 1 then 12 else nn - 1)) ∧
    (∀ (s cap : List Char) (nn : Nat), p2Find s = some cap →
      digitsToNat cap = nn → nn = 0 ∨ 14 ≤ nn →
      detect2 s = pattern3 s) ∧
    (∀ (s cap : List Char) (nn : Nat), p2Find s = some cap →
      digitsToNat cap = nn → 1 ≤ nn → nn ≤ 13 →
      detect2 s = some (if nn = 1 then 12 else nn - 1)) := by
  refine ⟨?_, ?_, ?_, ?_⟩
  · intro s cap nn hfind hval hout
    rw [detect_match1 hfind, hval, offsetCorrect_eq_none hout]
  · intro s cap nn hfind hval h1 h2
    rw [detect_match1 hfind, hval, offsetCorrect_accept h1 h2]
  · intro s cap nn hfind hval hout
    rw [detect2_match2 hfind, hval, offsetCorrect_eq_none hout]
  · intro s cap nn hfind hval h1 h2
    rw [detect2_match2 hfind, hval, offsetCorrect_accept h1 h2]

/-- C2, witness: on `99月.pdf` pattern 1 parses 99 and falls through to
the later patterns, while on `13月.pdf` the parsed 13 is accepted and
pattern 1 returns 12; on `_00_x.pdf` pattern 2 parses 0 and falls through
to pattern 3, while on `_13_x.pdf` the parsed 13 is accepted and
pattern 2 returns 12. -/
theorem claim_C2_witness :
    detectMonthFromFilename ("99月.pdf".toList) = detect2 ("99月.pdf".toList) ∧
      detectMonthFromFilename ("13月.pdf".toList) = some 12 ∧
      detect2 ("_00_x.pdf".toList) = pattern3 ("_00_x.pdf".toList) ∧
      detect2 ("_13_x.pdf".toList) = some 12 := by
  exact ⟨claim_C2_theorem.1 ("99月.pdf".toList) ("99".toList) 99
      (by decide) (by decide) (by decide),
    claim_C2_theorem.2.1 ("13月.pdf".toList) ("13".toList) 13
      (by decide) (by decide) (by decide) (by decide),
    claim_C2_theorem.2.2.1 ("_00_x.pdf".toList) ("00".toList) 0
      (by decide) (by decide) (by decide),
    claim_C2_theorem.2.2.2 ("_13_x.pdf".toList) ("13".toList) 13
      (by decide) (by decide) (by decide) (by decide)⟩

/-- C3, counterexample: `a.07.pdf` contains the two-digit token `07`
delimited by `.` on both sides, yet the detector returns `null`, because
the regex requires the leading delimiter to be `_` or `-` (only the
trailing class admits `.`); and `1月_07_.pdf` contains the delimited token
`_07_` yet yields 12, because pattern 1 has priority. -/
theorem claim_C3_counterexample :
    detectMonthFromFilename ("a.07.pdf".toList) = none ∧
      containsSubstr ("a.07.pdf".toList) (".07.".toList) = true ∧
      detectMonthFromFilename ("1月_07_.pdf".toList) = some 12 ∧
      containsSubstr ("1月_07_.pdf".toList) ("_07_".toList) = true := by
  decide

/-- C3, amended: when pattern 1 accepts nothing and the leftmost
occurrence of a two-digit number preceded by `_` or `-` and followed by
`_`, `-`, or `.` parses to NN ∈ [1,12], the detected month is NN−1
(wrapping 1→12). -/
theorem claim_C3_theorem (s cap : List Char) (nn : Nat)
    (hacc : p1Accept s = none)
    (hfind : p2Find s = some cap)
    (hval : digitsToNat cap = nn)
    (h1 : 1 ≤ nn) (h2 : nn ≤ 12) :
    detectMonthFromFilename s = some (if nn = 1 then 12 else nn - 1) := by
  rw [p1Accept_none_detect hacc, detect2_match2 hfind, hval,
    offsetCorrect_of_mem h1 h2]

/-- C3, witness: `invoice_2025-12.pdf` yields detected month 11. -/
theorem claim_C3_witness :
    detectMonthFromFilename ("invoice_2025-12.pdf".toList) = some 11 := by
  exact claim_C3_theorem ("invoice_2025-12.pdf".toList) ("12".toList) 12
    (by decide) (by decide) (by decide) (by decide) (by decide)

/-- C4, counterexample: `june_july.pdf` contains the English month name
`july` and matches no numeric pattern, so the claim demands detected
month 7; the code iterates the table in insertion order, hits `jun`
first, and returns 6. -/
theorem claim_C4_counterexample :
    detectMonthFromFilename ("june_july.pdf".toList) = some 6 ∧
      containsSubstr (("june_july.pdf".toList).map jsToLower) ("july".toList) = true ∧
      p1Find ("june_july.pdf".toList) = none ∧
      p2Find ("june_july.pdf".toList) = none := by
  decide

/-- C4, amended: when neither numeric pattern accepts a value, the
detector returns the month of the first name in the fixed table iteration
order (jan, january, feb, …, dec, december) that occurs case-insensitively
in the filename, with no offset correction. -/
theorem claim_C4_theorem (s nm : List Char) (m : Nat)
    (pre post : List (List Char × Nat))
    (hacc1 : p1Accept s = none) (hacc2 : p2Accept s = none)
    (htbl : monthNames = pre ++ (nm, m) :: post)
    (hmem : containsSubstr (s.map jsToLower) nm = true)
    (hpre : ∀ p ∈ pre, containsSubstr (s.map jsToLower) p.1 = false) :
    detectMonthFromFilename s = some m := by
  rw [p1Accept_none_detect hacc1, p2Accept_none_detect2 hacc2]
  unfold pattern3
  rw [htbl]
  exact monthLookup_first hmem hpre

/-- C4, witness: `March_bill.pdf` yields detected month 3 via the table
entry `mar`. -/
theorem claim_C4_witness :
    detectMonthFromFilename ("March_bill.pdf".toList) = some 3 := by
  exact claim_C4_theorem ("March_bill.pdf".toList) ("mar".toList) 3
    (monthNames.take 4) (monthNames.drop 5)
    (by decide) (by decide) (by decide) (by decide) (by decide)

/-- C5: the three heuristics are tried in fixed priority order and the
first accepted value determines the result; later patterns cannot
influence the returned month once an earlier pattern succeeds. -/
theorem claim_C5_theorem (s : List Char) :
    detectMonthFromFilename s =
      (match p1Accept s with
       | some m => some m
       | none =>
         match p2Accept s with
         | some m => some m
         | none => pattern3 s) := by
  rcases h1 : p1Accept s with _ | m1
  · rcases h2 : p2Accept s with _ | m2
    · exact (p1Accept_none_detect h1).trans (p2Accept_none_detect2 h2)
    · exact (p1Accept_none_detect h1).trans (p2Accept_detect2 h2)
  · exact p1Accept_detect h1

/-- C6: a filename matched by none of the three heuristics yields
`null`. -/
theorem claim_C6_theorem (s : List Char)
    (h1 : p1Find s = none) (h2 : p2Find s = none)
    (h3 : ∀ p ∈ monthNames, containsSubstr (s.map jsToLower) p.1 = false) :
    detectMonthFromFilename s = none := by
  rw [detect_nomatch1 h1, detect2_nomatch2 h2]
  unfold pattern3
  exact monthLookup_not_found h3

/-- C6, witness: `readme.pdf` yields `null`. -/
theorem claim_C6_witness :
    detectMonthFromFilename ("readme.pdf".toList) = none := by
  exact claim_C6_theorem ("readme.pdf".toList) (by decide) (by decide) (by decide)

/-- C7: for every input the detector returns `null` or an integer in
[1,12]; no out-of-range value is ever returned. -/
theorem claim_C7_theorem (s : List Char) :
    detectMonthFromFilename s = none ∨
      ∃ m, detectMonthFromFilename s = some m ∧ 1 ≤ m ∧ m ≤ 12 := by
  rcases h : detectMonthFromFilename s with _ | m
  · exact Or.inl rfl
  · exact Or.inr ⟨m, rfl, detect_range h⟩

/-!
## Claims C8 and C9
-/

/-- The dropdown values `"1"` … `"12"` offered by the single-month
selector built in `renderFileList`. -/
def monthOptionStrs : List (List Char) :=
  ["1", "2", "3", "4", "5", "6", "7", "8", "9", "10", "11", "12"].map String.toList

/-- The invariant of C9: every uploaded entry's `selectedMonth` is an
integer in [1,12] (in particular it is neither `null` nor `NaN`). -/
def monthsWF (st : List UploadedEntry) : Prop :=
  ∀ e ∈ st, ∃ m : Int, e.selectedMonth = some m ∧ 1 ≤ m ∧ m ≤ 12

theorem jsParseInt_month {ms : List Char} (h : ms ∈ monthOptionStrs) :
    ∃ m : Int, jsParseInt ms = some m ∧ 1 ≤ m ∧ m ≤ 12 := by
  simp only [monthOptionStrs, List.map, List.mem_cons, List.not_mem_nil, or_false] at h
  rcases h with rfl | rfl | rfl | rfl | rfl | rfl | rfl | rfl | rfl | rfl | rfl | rfl
  · exact ⟨1, by decide, by decide, by decide⟩
  · exact ⟨2, by decide, by decide, by decide⟩
  · exact ⟨3, by decide, by decide, by decide⟩
  · exact ⟨4, by decide, by decide, by decide⟩
  · exact ⟨5, by decide, by decide, by decide⟩
  · exact ⟨6, by decide, by decide, by decide⟩
  · exact ⟨7, by decide, by decide, by decide⟩
  · exact ⟨8, by decide, by decide, by decide⟩
  · exact ⟨9, by decide, by decide, by decide⟩
  · exact ⟨10, by decide, by decide, by decide⟩
  · exact ⟨11, by decide, by decide, by decide⟩
  · exact ⟨12, by decide, by decide, by decide⟩

theorem setMonthAt_WF {st : List UploadedEntry} {i : Nat} {v : Option Int}
    (hst : monthsWF st) (hv : ∃ m : Int, v = some m ∧ 1 ≤ m ∧ m ≤ 12) :
    monthsWF (setMonthAt st i v) := by
  induction st generalizing i with
  | nil => exact hst
  | cons e rest ih =>
    cases i with
    | zero =>
      intro x hx
      rcases List.mem_cons.mp hx with rfl | hx
      · exact hv
      · exact hst x (List.mem_cons_of_mem _ hx)
    | succ j =>
      intro x hx
      rcases List.mem_cons.mp hx with rfl | hx
      · exact hst x (List.mem_cons_self _ _)
      · exact ih (fun y hy => hst y (List.mem_cons_of_mem _ hy)) x hx

/-- C8: in the result-rendering loop, an item whose status is neither
`完了` nor `kWh未検出` is rendered inline as exactly one failed row, at its
position in the batch; items before and after it are still rendered, so a
per-file failure neither aborts the batch nor is silently dropped. -/
theorem claim_C8_theorem (files : List UploadedEntry)
    (pre post : List ResultItem) (item : ResultItem)
    (h1 : ¬ item.status = "完了".toList)
    (h2 : ¬ item.status = "kWh未検出".toList) :
    renderResults files (pre ++ item :: post) =
      renderResults files pre ++
        TableRow.errorRow item.filename :: renderResults files post := by
  induction pre with
  | nil =>
    simp only [List.nil_append, renderResults]
    unfold renderItem
    rw [if_neg (not_or.mpr ⟨h1, h2⟩)]
    rfl
  | cons q rest ih =>
    simp only [List.cons_append, renderResults, List.append_eq, ih,
      List.append_assoc]

/-- C8, witness: a batch consisting of one item with status `エラー`
renders as exactly the failed row for that file. -/
theorem claim_C8_witness :
    renderResults []
      [{ filename := "a.pdf".toList, status := "エラー".toList, fields := [],
         ocr_text := [], ocr_confidence := none }] =
      [TableRow.errorRow ("a.pdf".toList)] := by
  exact claim_C8_theorem [] [] []
    { filename := "a.pdf".toList, status := "エラー".toList, fields := [],
      ocr_text := [], ocr_confidence := none }
    (by decide) (by decide)

/-- C9: every entry of the uploaded-file list keeps `selectedMonth` in
[1,12]: `addFiles` initialises it to the detected month (or 1 when
detection returned `null`), and `updateFileMonth` with a dropdown value
among `"1"` … `"12"` keeps it in range. -/
theorem claim_C9_theorem :
    (∀ (st : List UploadedEntry) (names : List (List Char)),
      monthsWF st → monthsWF (addFiles names st)) ∧
    (∀ (st : List UploadedEntry) (i : Nat) (ms : List Char),
      monthsWF st → ms ∈ monthOptionStrs → monthsWF (updateFileMonth st i ms)) := by
  constructor
  · intro st names hst e he
    unfold addFiles at he
    rcases List.mem_append.mp he with he | he
    · exact hst e he
    · obtain ⟨nm, _, rfl⟩ := List.mem_map.mp he
      rcases hd : detectMonthFromFilename nm with _ | m
      · exact ⟨1, rfl, by decide, by decide⟩
      · obtain ⟨hm1, hm2⟩ := detect_range hd
        refine ⟨(m : Int), ?_, by exact_mod_cast hm1, by exact_mod_cast hm2⟩
        simp only [initMonth]
        rw [if_neg (by omega : ¬ m = 0)]
  · intro st i ms hst hms
    exact setMonthAt_WF hst (jsParseInt_month hms)

/-- C9, witness: adding a file to an empty list and updating a singleton
list with the dropdown value `"12"` both leave every `selectedMonth` in
[1,12]. -/
theorem claim_C9_witness :
    monthsWF (addFiles ["March_bill.pdf".toList] []) ∧
      monthsWF (updateFileMonth [⟨"a.pdf".toList, none, some 1⟩] 0 ("12".toList)) := by
  constructor
  · exact claim_C9_theorem.1 [] ["March_bill.pdf".toList]
      (fun e he => absurd he (List.not_mem_nil e))
  · refine claim_C9_theorem.2 [⟨"a.pdf".toList, none, some 1⟩] 0 ("12".toList)
      (fun e he => ?_) (by decide)
    rw [List.mem_singleton] at he
    subst he
    exact ⟨1, rfl, by decide, by decide⟩

/-!
## Claim C10: whitespace between the digits and `月`

Pattern 1 contains `\s*`, so a filename in which the digits are separated
from `月` only by whitespace behaves exactly like the one in which they
are adjacent.  The lemmas below show that deleting that whitespace run
changes the result of none of the three patterns.
-/

theorem space_not_p1digit {c : Char} (h : isJsSpace c = true) :
    isP1Digit c = false := by
  rw [← Bool.not_eq_true]
  simp only [isJsSpace, isP1Digit, isHalfDigit, isFullDigit, Bool.or_eq_true,
    Bool.and_eq_true, decide_eq_true_eq] at h ⊢
  omega

theorem space_ne_month {c : Char} (h : isJsSpace c = true) : ¬ c = '月' := by
  intro hc
  subst hc
  exact absurd h (by decide)

theorem digit_not_space {c : Char} (h : isP1Digit c = true) :
    isJsSpace c = false := by
  rw [← Bool.not_eq_true]
  simp only [isJsSpace, isP1Digit, isHalfDigit, isFullDigit, Bool.or_eq_true,
    Bool.and_eq_true, decide_eq_true_eq] at h ⊢
  omega

theorem digit_ne_month {c : Char} (h : isP1Digit c = true) : ¬ c = '月' := by
  intro hc
  subst hc
  exact absurd h (by decide)

theorem wsThenMonth_spaces {ws b : List Char}
    (h : ∀ c ∈ ws, isJsSpace c = true) :
    wsThenMonth (ws ++ '月' :: b) = true := by
  induction ws with
  | nil => simp [wsThenMonth]
  | cons w ws' ih =>
    have hw : isJsSpace w = true := h w (List.mem_cons_self _ _)
    simp only [List.cons_append, wsThenMonth, if_neg (space_ne_month hw), hw,
      if_pos]
    exact ih (fun c hc => h c (List.mem_cons_of_mem _ hc))

theorem wsThenMonth_digit {d : Char} {l : List Char} (hd : isP1Digit d = true) :
    wsThenMonth (d :: l) = false := by
  simp [wsThenMonth, digit_ne_month hd, digit_not_space hd]

theorem wsThenMonth_congr {c0 : Char} (h1 : ¬ c0 = '月') (h2 : isJsSpace c0 = false)
    (r1 r2 : List Char) :
    ∀ x : List Char, wsThenMonth (x ++ c0 :: r1) = wsThenMonth (x ++ c0 :: r2) := by
  intro x
  induction x with
  | nil => simp [wsThenMonth, h1, h2]
  | cons c x' ih =>
    by_cases hc : c = '月'
    · simp [wsThenMonth, hc]
    · by_cases hs : isJsSpace c = true
      · simp only [List.cons_append, wsThenMonth, if_neg hc, hs, if_pos]
        exact ih
      · simp [wsThenMonth, hc, hs]

section P1Congr

variable {dlast : Char} {ws : List Char}

theorem p1At_congr (b : List Char) (hdl : isP1Digit dlast = true)
    (hws : ∀ c ∈ ws, isJsSpace c = true) :
    ∀ x : List Char,
      p1At (x ++ dlast :: (ws ++ '月' :: b)) = p1At (x ++ dlast :: ('月' :: b)) := by
  intro x
  match x with
  | [] =>
    cases ws with
    | nil => rfl
    | cons w ws' =>
      have hw : isJsSpace w = true := hws w (List.mem_cons_self _ _)
      have hwd : isP1Digit w = false := space_not_p1digit hw
      have hmw : wsThenMonth ((w :: ws') ++ '月' :: b) = true :=
        wsThenMonth_spaces hws
      simp only [List.cons_append] at hmw
      have hmd : isP1Digit '月' = false := by decide
      have hb : wsThenMonth ('月' :: b) = true := by simp [wsThenMonth]
      simp [p1At, hdl, hwd, hmw, hmd, hb]
  | [c] =>
    have hm1 : wsThenMonth (ws ++ '月' :: b) = true := wsThenMonth_spaces hws
    have hb : wsThenMonth ('月' :: b) = true := by simp [wsThenMonth]
    by_cases hc : isP1Digit c = true
    · simp [p1At, hc, hdl, hm1, hb]
    · simp only [Bool.not_eq_true] at hc
      simp [p1At, hc]
  | c :: c2 :: x'' =>
    have e1 := wsThenMonth_congr (digit_ne_month hdl) (digit_not_space hdl)
      (ws ++ '月' :: b) ('月' :: b) x''
    have e2 := wsThenMonth_congr (digit_ne_month hdl) (digit_not_space hdl)
      (ws ++ '月' :: b) ('月' :: b) (c2 :: x'')
    simp only [List.cons_append] at e2
    simp only [List.cons_append, p1At, e1, e2]

theorem p1At_none_of_not_digit {c : Char} {l : List Char}
    (h : isP1Digit c = false) : p1At (c :: l) = none := by
  simp [p1At, h]

theorem p1Find_skip_spaces {y : List Char} {ws : List Char}
    (hws : ∀ c ∈ ws, isJsSpace c = true) :
    p1Find (ws ++ y) = p1Find y := by
  induction ws with
  | nil => rfl
  | cons w ws' ih =>
    have hw : isJsSpace w = true := hws w (List.mem_cons_self _ _)
    simp only [List.cons_append, p1Find,
      p1At_none_of_not_digit (space_not_p1digit hw)]
    exact ih (fun c hc => hws c (List.mem_cons_of_mem _ hc))

theorem p1Find_congr (b : List Char) (hdl : isP1Digit dlast = true)
    (hws : ∀ c ∈ ws, isJsSpace c = true) :
    ∀ x : List Char,
      p1Find (x ++ dlast :: (ws ++ '月' :: b)) = p1Find (x ++ dlast :: ('月' :: b)) := by
  intro x
  induction x with
  | nil =>
    have hAt := p1At_congr b hdl hws []
    simp only [List.nil_append] at hAt
    have htail : p1Find (ws ++ '月' :: b) = p1Find ('月' :: b) :=
      p1Find_skip_spaces hws
    simp only [List.nil_append, p1Find, hAt, htail]
  | cons c x' ih =>
    have hAt := p1At_congr b hdl hws (c :: x')
    simp only [List.cons_append] at hAt ⊢
    simp only [p1Find, hAt, ih]

end P1Congr

theorem p1Find_isSome_append {l : List Char}
    (h : (p1Find l).isSome = true) :
    ∀ x : List Char, (p1Find (x ++ l)).isSome = true := by
  intro x
  induction x with
  | nil => exact h
  | cons c x' ih =>
    simp only [List.cons_append, p1Find]
    rcases hAt : p1At (c :: (x' ++ l)) with _ | cap
    · exact ih
    · rfl

theorem p1At_digit_month {dlast : Char} {b : List Char}
    (hdl : isP1Digit dlast = true) :
    p1At (dlast :: '月' :: b) = some [dlast] := by
  have hmd : isP1Digit '月' = false := by decide
  simp [p1At, hdl, hmd, wsThenMonth]

/-!
### Pattern 2 is unaffected by the whitespace run

Whitespace characters and `月` are inert for pattern 2: they are neither
delimiters nor half-width digits, so no window of the regex can cross the
deleted region.
-/

theorem space_inert {c : Char} (h : isJsSpace c = true) :
    isDelimL c = false ∧ isHalfDigit c = false ∧ isDelimR c = false := by
  refine ⟨?_, ?_, ?_⟩ <;>
    (rw [← Bool.not_eq_true]
     simp only [isJsSpace, isDelimL, isHalfDigit, isDelimR, Bool.or_eq_true,
       Bool.and_eq_true, decide_eq_true_eq] at h ⊢
     omega)

theorem p2At_none1 {c1 : Char} {l : List Char} (h : isDelimL c1 = false) :
    p2At (c1 :: l) = none := by
  rcases l with _ | ⟨c2, _ | ⟨c3, _ | ⟨c4, t⟩⟩⟩ <;> simp [p2At, h]

theorem p2At_none2 {c1 c2 : Char} {l : List Char} (h : isHalfDigit c2 = false) :
    p2At (c1 :: c2 :: l) = none := by
  rcases l with _ | ⟨c3, _ | ⟨c4, t⟩⟩ <;> simp [p2At, h]

theorem p2At_none3 {c1 c2 c3 : Char} {l : List Char} (h : isHalfDigit c3 = false) :
    p2At (c1 :: c2 :: c3 :: l) = none := by
  rcases l with _ | ⟨c4, t⟩ <;> simp [p2At, h]

theorem p2At_none4 {c1 c2 c3 c4 : Char} {l : List Char} (h : isDelimR c4 = false) :
    p2At (c1 :: c2 :: c3 :: c4 :: l) = none := by
  simp [p2At, h]

theorem p2Find_skip {y : List Char} {I : List Char}
    (hL : ∀ c ∈ I, isDelimL c = false) :
    p2Find (I ++ y) = p2Find y := by
  induction I with
  | nil => rfl
  | cons i I' ih =>
    simp only [List.cons_append, p2Find,
      p2At_none1 (hL i (List.mem_cons_self _ _))]
    exact ih (fun c hc => hL c (List.mem_cons_of_mem _ hc))

theorem p2Find_congr (I1 I2 y : List Char)
    (hne1 : I1 ≠ []) (hne2 : I2 ≠ [])
    (hI1 : ∀ c ∈ I1, isDelimL c = false ∧ isHalfDigit c = false ∧ isDelimR c = false)
    (hI2 : ∀ c ∈ I2, isDelimL c = false ∧ isHalfDigit c = false ∧ isDelimR c = false) :
    ∀ x : List Char, p2Find (x ++ (I1 ++ y)) = p2Find (x ++ (I2 ++ y)) := by
  intro x
  induction x with
  | nil =>
    simp only [List.nil_append]
    rw [p2Find_skip (fun c hc => (hI1 c hc).1), p2Find_skip (fun c hc => (hI2 c hc).1)]
  | cons c x' ih =>
    obtain ⟨i1, I1', rfl⟩ := List.exists_cons_of_ne_nil hne1
    obtain ⟨i2, I2', rfl⟩ := List.exists_cons_of_ne_nil hne2
    have hd1 : isHalfDigit i1 = false := (hI1 i1 (List.mem_cons_self _ _)).2.1
    have hd2 : isHalfDigit i2 = false := (hI2 i2 (List.mem_cons_self _ _)).2.1
    have hr1 : isDelimR i1 = false := (hI1 i1 (List.mem_cons_self _ _)).2.2
    have hr2 : isDelimR i2 = false := (hI2 i2 (List.mem_cons_self _ _)).2.2
    have hAt : p2At (c :: (x' ++ ((i1 :: I1') ++ y))) = p2At (c :: (x' ++ ((i2 :: I2') ++ y))) := by
      match x' with
      | [] =>
        simp only [List.nil_append, List.cons_append]
        rw [p2At_none2 hd1, p2At_none2 hd2]
      | [a2] =>
        simp only [List.cons_append, List.nil_append]
        rw [p2At_none3 hd1, p2At_none3 hd2]
      | [a2, a3] =>
        simp only [List.cons_append, List.nil_append]
        rw [p2At_none4 hr1, p2At_none4 hr2]
      | a2 :: a3 :: a4 :: r =>
        simp only [List.cons_append]
        rfl
    simp only [List.cons_append] at ih
    simp only [List.cons_append, p2Find, List.append_eq] at hAt ⊢
    rw [hAt, ih]

/-!
### Pattern 3 is unaffected by the whitespace run

All month names consist of lowercase ASCII letters, and whitespace and
`月` are not letters (also after `toLowerCase`), so no occurrence of a
name can cross the deleted region.
-/

theorem space_jsToLower {c : Char} (h : isJsSpace c = true) : jsToLower c = c := by
  unfold jsToLower
  rw [if_neg]
  simp only [isJsSpace, Bool.or_eq_true, Bool.and_eq_true, decide_eq_true_eq] at h ⊢
  omega

theorem lower_ne_space {c i : Char} (h1 : 97 ≤ c.toNat) (h2 : c.toNat ≤ 122)
    (hs : isJsSpace i = true) : ¬ c = i := by
  intro hc
  subst hc
  simp only [isJsSpace, Bool.or_eq_true, Bool.and_eq_true, decide_eq_true_eq] at hs
  omega

theorem lower_ne_month {c : Char} (h1 : 97 ≤ c.toNat) (h2 : c.toNat ≤ 122) :
    ¬ c = '月' := by
  intro hc
  subst hc
  exact absurd h2 (by decide)

theorem startsWithL_head_ne {c : Char} {nm I y : List Char}
    (hne : I ≠ []) (h : ∀ i ∈ I, ¬ c = i) :
    startsWithL (c :: nm) (I ++ y) = false := by
  obtain ⟨i, I', rfl⟩ := List.exists_cons_of_ne_nil hne
  simp [startsWithL, h i (List.mem_cons_self _ _)]

theorem startsWithL_congr (I1 I2 y1 y2 : List Char)
    (h1 : I1 ≠ []) (h2 : I2 ≠ []) :
    ∀ (nm x : List Char),
      (∀ c ∈ nm, ∀ i ∈ I1, ¬ c = i) → (∀ c ∈ nm, ∀ i ∈ I2, ¬ c = i) →
      startsWithL nm (x ++ (I1 ++ y1)) = startsWithL nm (x ++ (I2 ++ y2)) := by
  intro nm
  induction nm with
  | nil => intro x _ _; rfl
  | cons c nm' ih =>
    intro x hs1 hs2
    cases x with
    | nil =>
      simp only [List.nil_append]
      rw [startsWithL_head_ne h1 (fun i hi => hs1 c (List.mem_cons_self _ _) i hi),
        startsWithL_head_ne h2 (fun i hi => hs2 c (List.mem_cons_self _ _) i hi)]
    | cons a x' =>
      simp only [List.cons_append, startsWithL]
      by_cases hca : c = a
      · rw [if_pos hca, if_pos hca]
        exact ih x' (fun d hd => hs1 d (List.mem_cons_of_mem _ hd))
          (fun d hd => hs2 d (List.mem_cons_of_mem _ hd))
      · rw [if_neg hca, if_neg hca]

theorem containsSubstr_skip {nm I y : List Char} (hnm : nm ≠ [])
    (hsep : ∀ c ∈ nm, ∀ i ∈ I, ¬ c = i) :
    containsSubstr (I ++ y) nm = containsSubstr y nm := by
  induction I with
  | nil => rfl
  | cons i I' ih =>
    obtain ⟨c, nm', rfl⟩ := List.exists_cons_of_ne_nil hnm
    have hsw : startsWithL (c :: nm') ((i :: I') ++ y) = false :=
      startsWithL_head_ne (by simp)
        (fun j hj => hsep c (List.mem_cons_self _ _) j hj)
    simp only [List.cons_append] at hsw
    simp only [List.cons_append, containsSubstr, List.append_eq, hsw, Bool.false_or]
    exact ih (fun d hd i2 hi2 => hsep d hd i2 (List.mem_cons_of_mem _ hi2))

theorem containsSubstr_congr (I1 I2 y nm : List Char)
    (h1 : I1 ≠ []) (h2 : I2 ≠ []) (hnm : nm ≠ [])
    (hs1 : ∀ c ∈ nm, ∀ i ∈ I1, ¬ c = i) (hs2 : ∀ c ∈ nm, ∀ i ∈ I2, ¬ c = i) :
    ∀ x : List Char,
      containsSubstr (x ++ (I1 ++ y)) nm = containsSubstr (x ++ (I2 ++ y)) nm := by
  intro x
  induction x with
  | nil =>
    simp only [List.nil_append]
    rw [containsSubstr_skip hnm hs1, containsSubstr_skip hnm hs2]
  | cons a x' ih =>
    have hsw := startsWithL_congr I1 I2 y y h1 h2 nm (a :: x') hs1 hs2
    simp only [List.cons_append] at hsw
    simp only [List.cons_append, containsSubstr, List.append_eq, hsw, ih]

theorem monthLookup_congr {L1 L2 : List Char} (tbl : List (List Char × Nat))
    (h : ∀ p ∈ tbl, containsSubstr L1 p.1 = containsSubstr L2 p.1) :
    monthLookup tbl L1 = monthLookup tbl L2 := by
  induction tbl with
  | nil => rfl
  | cons p rest ih =>
    obtain ⟨nm, v⟩ := p
    have hh : containsSubstr L1 nm = containsSubstr L2 nm := h (nm, v) (List.mem_cons_self _ _)
    by_cases hc : containsSubstr L2 nm = true
    · simp [monthLookup, hh, hc]
    · simp only [Bool.not_eq_true] at hc
      simp only [monthLookup, hh, hc, Bool.false_eq_true, if_false]
      exact ih (fun q hq => h q (List.mem_cons_of_mem _ hq))

/-- Every table name is nonempty and consists of lowercase ASCII letters. -/
theorem monthNames_lower :
    ∀ p ∈ monthNames, p.1 ≠ [] ∧ ∀ c ∈ p.1, 97 ≤ c.toNat ∧ c.toNat ≤ 122 := by
  decide

/-!
### Assembling the detector congruence
-/

theorem detect2_congr_of {s1 s2 : List Char}
    (h2 : p2Find s1 = p2Find s2) (h3 : pattern3 s1 = pattern3 s2) :
    detect2 s1 = detect2 s2 := by
  rcases hp2 : p2Find s2 with _ | cap
  · rw [detect2_nomatch2 (h2.trans hp2), detect2_nomatch2 hp2, h3]
  · rw [detect2_match2 (h2.trans hp2), detect2_match2 hp2]
    rcases offsetCorrect (digitsToNat cap) with _ | m
    · exact h3
    · rfl

theorem detect_congr_of {s1 s2 : List Char}
    (h1 : p1Find s1 = p1Find s2) (h2 : p2Find s1 = p2Find s2)
    (h3 : pattern3 s1 = pattern3 s2) :
    detectMonthFromFilename s1 = detectMonthFromFilename s2 := by
  rcases hp1 : p1Find s2 with _ | cap
  · rw [detect_nomatch1 (h1.trans hp1), detect_nomatch1 hp1]
    exact detect2_congr_of h2 h3
  · rw [detect_match1 (h1.trans hp1), detect_match1 hp1]
    rcases offsetCorrect (digitsToNat (cap.map toHalf)) with _ | m
    · exact detect2_congr_of h2 h3
    · rfl

/-- C10: whitespace between the digits and `月` is absorbed by the `\s*`
of pattern 1: the pattern still matches, and the detector returns exactly
what it returns when the digits are immediately followed by `月`. -/
theorem claim_C10_theorem (a ds ws b : List Char)
    (hds : ∀ c ∈ ds, isP1Digit c = true)
    (hlen : ds.length = 1 ∨ ds.length = 2)
    (hws : ∀ c ∈ ws, isJsSpace c = true)
    (hwsne : ws ≠ []) :
    (p1Find (a ++ (ds ++ (ws ++ '月' :: b)))).isSome = true ∧
      detectMonthFromFilename (a ++ (ds ++ (ws ++ '月' :: b))) =
        detectMonthFromFilename (a ++ (ds ++ ('月' :: b))) := by
  obtain ⟨x0, dl, hdl, hx1, hx2⟩ :
      ∃ (x0 : List Char) (dl : Char), isP1Digit dl = true ∧
        a ++ (ds ++ (ws ++ '月' :: b)) = x0 ++ dl :: (ws ++ '月' :: b) ∧
        a ++ (ds ++ ('月' :: b)) = x0 ++ dl :: ('月' :: b) := by
    rcases hlen with h | h
    · obtain ⟨d, rfl⟩ := List.length_eq_one.mp h
      exact ⟨a, d, hds d (by simp), by simp, by simp⟩
    · obtain ⟨d1, d2, rfl⟩ := List.length_eq_two.mp h
      exact ⟨a ++ [d1], d2, hds d2 (by simp), by simp, by simp⟩
  have h1 : p1Find (a ++ (ds ++ (ws ++ '月' :: b))) =
      p1Find (a ++ (ds ++ ('月' :: b))) := by
    rw [hx1, hx2]
    exact p1Find_congr b hdl hws x0
  have hI1 : ∀ c ∈ ws ++ ['月'],
      isDelimL c = false ∧ isHalfDigit c = false ∧ isDelimR c = false := by
    intro c hc
    rcases List.mem_append.mp hc with hc | hc
    · exact space_inert (hws c hc)
    · rw [List.mem_singleton] at hc
      subst hc
      exact ⟨by decide, by decide, by decide⟩
  have hI2 : ∀ c ∈ (['月'] : List Char),
      isDelimL c = false ∧ isHalfDigit c = false ∧ isDelimR c = false := by
    intro c hc
    rw [List.mem_singleton] at hc
    subst hc
    exact ⟨by decide, by decide, by decide⟩
  have h2 : p2Find (a ++ (ds ++ (ws ++ '月' :: b))) =
      p2Find (a ++ (ds ++ ('月' :: b))) := by
    have hcg := p2Find_congr (ws ++ ['月']) ['月'] b
      (by simp) (by simp) hI1 hI2 (a ++ ds)
    simpa [List.append_assoc] using hcg
  have h3 : pattern3 (a ++ (ds ++ (ws ++ '月' :: b))) =
      pattern3 (a ++ (ds ++ ('月' :: b))) := by
    unfold pattern3
    have hm : jsToLower '月' = '月' := by decide
    simp only [List.map_append, List.map_cons, hm]
    apply monthLookup_congr
    intro p hp
    obtain ⟨hne, hlower⟩ := monthNames_lower p hp
    have hs1 : ∀ c ∈ p.1, ∀ i ∈ ws.map jsToLower ++ ['月'], ¬ c = i := by
      intro c hc i hi
      obtain ⟨hc1, hc2⟩ := hlower c hc
      rcases List.mem_append.mp hi with hi | hi
      · obtain ⟨w, hw, rfl⟩ := List.mem_map.mp hi
        rw [space_jsToLower (hws w hw)]
        exact lower_ne_space hc1 hc2 (hws w hw)
      · rw [List.mem_singleton] at hi
        subst hi
        exact lower_ne_month hc1 hc2
    have hs2 : ∀ c ∈ p.1, ∀ i ∈ (['月'] : List Char), ¬ c = i := by
      intro c hc i hi
      obtain ⟨hc1, hc2⟩ := hlower c hc
      rw [List.mem_singleton] at hi
      subst hi
      exact lower_ne_month hc1 hc2
    have hcg := containsSubstr_congr (ws.map jsToLower ++ ['月']) ['月']
      (b.map jsToLower) p.1
      (by simp) (by simp) hne hs1 hs2 (a.map jsToLower ++ ds.map jsToLower)
    simpa [List.append_assoc] using hcg
  have hsome : (p1Find (a ++ (ds ++ (ws ++ '月' :: b)))).isSome = true := by
    rw [h1, hx2]
    apply p1Find_isSome_append
    have hfd : p1Find (dl :: '月' :: b) = some [dl] := by
      simp only [p1Find, p1At_digit_month hdl]
    rw [hfd]
    rfl
  exact ⟨hsome, detect_congr_of h1 h2 h3⟩

/-- C10, witness: `3 月分.pdf` still matches pattern 1 and yields exactly
the detection result of `3月分.pdf` (namely month 2). -/
theorem claim_C10_witness :
    (p1Find ("3 月分.pdf".toList)).isSome = true ∧
      detectMonthFromFilename ("3 月分.pdf".toList) =
        detectMonthFromFilename ("3月分.pdf".toList) := by
  exact claim_C10_theorem [] ['3'] [' '] ("分.pdf".toList)
    (by decide) (by decide) (by decide) (by decide)

end Hikari
